import Mathlib

/-!
Verification of the fragment-merge engine of the `kumose-go/env` package.

The Go package manages prioritized environment fragments (key/value
environment variables plus shell script snippets), validates fragment
priorities against a name-derived tier, stably sorts fragments by priority,
folds their environments into a merged mapping with per-key provenance, and
exposes emission adapters (bash / zsh / powershell), a regex search over the
raw fragments, and save/load of the manager state.

Modelling conventions:
* Go `map[string]string` values are modelled as association lists
  `List (String × String)` (one entry per iteration step of the Go map);
  the merged map and the key-source map are modelled as functions
  `String → Option String` and `String → List String`, since Go map writes
  are pointwise updates.  A Go `nil` map is `Option.none`.
* `time.Now()` is modelled by an explicit `now : Nat` argument and
  `time.Time.Format(RFC3339)` by an abstract rendering `fmtTime`.
* File I/O is out of scope: builders return the list of lines they would
  write, `FeedFile` takes the already-decoded YAML document stream
  (`Except` for a document that fails to parse), and the `regexp` package
  is an external collaborator modelled by a `compile` parameter returning
  `Option` of a matcher.
-/

namespace KumoEnv

/-- Go struct `Script`: a shell script snippet in an environment fragment;
`sh` is the shell-type tag ("bash", "zsh", ...), `data` the script content. -/
structure Script where
  sh : String
  data : String
deriving Repr, DecidableEq

/-- Go struct `EnvFragment`: a named, prioritized bundle of environment
variables and scripts, with the source file it was loaded from. -/
structure EnvFragment where
  name : String
  priority : Int
  env : List (String × String)
  script : List Script
  source : String
deriving Repr, DecidableEq

/-- Go struct `EnvManager`: fragment store plus merged state.  `merged` is
`none` when the Go map is still `nil` (no merge ever ran on a fresh manager). -/
structure EnvManager where
  fragments : List EnvFragment
  merged : Option (String → Option String)
  keySources : String → List String
  sorted : Bool
  ctime : Nat

/-- The zero value of `EnvManager` in Go: empty fragment list, nil maps,
`sorted = false`. -/
def freshManager : EnvManager :=
  { fragments := []
    merged := none
    keySources := fun _ => []
    sorted := false
    ctime := 0 }

/-- Go `validateFragment`: checks the fragment name is non-empty and the
priority lies in the range of the tier derived from the name via the
process-wide tables `SystemEnv` and `InnerComponentEnv` (modelled as
parameters; a missing Go map key reads as `0`).  The system-tier branch is
transcribed exactly as written in the source: it only tests `priority > 19`. -/
def validateFragment (systemEnv innerComponentEnv : String → Int)
    (frag : EnvFragment) : Except String Unit :=
  if frag.name = "" then
    Except.error "fragment must have a name"
  else if systemEnv frag.name > 0 then
    if frag.priority > 19 then
      Except.error "system fragment priority must be 0-19"
    else
      Except.ok ()
  else if innerComponentEnv frag.name > 0 then
    if frag.priority < 20 ∨ frag.priority > 99 then
      Except.error "internal component priority must be 20-99"
    else
      Except.ok ()
  else
    if frag.priority < 100 then
      Except.error "custom fragment priority must be at least 100"
    else
      Except.ok ()

/-- One Go map write `merged[k] = v`. -/
def mapInsert (m : String → Option String) (k v : String) : String → Option String :=
  fun q => if q = k then some v else m q

/-- The inner merge loop `for k, v := range frag.Env { e.merged[k] = v }`,
with the association list giving the iteration order of the Go map. -/
def mergeEnv (m : String → Option String) (kvs : List (String × String)) :
    String → Option String :=
  kvs.foldl (fun acc kv => mapInsert acc kv.1 kv.2) m

/-- The outer merge loop over fragments. -/
def mergeFrags (m : String → Option String) (frags : List EnvFragment) :
    String → Option String :=
  frags.foldl (fun acc f => mergeEnv acc f.env) m

/-- One Go write `keySources[k] = append(keySources[k], n)`. -/
def srcAppend (s : String → List String) (k n : String) : String → List String :=
  fun q => if q = k then s k ++ [n] else s q

/-- The inner provenance loop of `SortAndMerge` for one fragment. -/
def srcFrag (s : String → List String) (f : EnvFragment) : String → List String :=
  f.env.foldl (fun acc kv => srcAppend acc kv.1 f.name) s

/-- The outer provenance loop of `SortAndMerge`. -/
def srcFrags (s : String → List String) (frags : List EnvFragment) :
    String → List String :=
  frags.foldl srcFrag s

/-- The comparison under Go `sort.SliceStable(e.fragments, less)` with
`less i j = fragments[i].Priority < fragments[j].Priority`; a stable sort by
the strict order `<` is the stable sort by the total preorder `≤`. -/
def fragLE (a b : EnvFragment) : Bool :=
  decide (a.priority ≤ b.priority)

/-- Stable sort of the fragment list by ascending priority. -/
def sortFrags (l : List EnvFragment) : List EnvFragment :=
  l.mergeSort fragLE

/-- The map Go's merge loop starts from: `e.merged`, first replaced by a
fresh empty map only when it is still nil (`if e.merged == nil`); an
existing merged map is kept, not cleared. -/
def mergedInit (e : EnvManager) : String → Option String :=
  match e.merged with
  | none => fun _ => none
  | some m => m

/-- Go `EnvManager.SortAndMerge`: initializes `merged` only when it is still
nil (the Go `if e.merged == nil` branch), recreates `keySources`, stably
sorts the fragments by ascending priority, folds every fragment's env into
`merged` while appending the fragment name to the key's provenance list,
then sets `sorted` and stamps `ctime`. -/
def SortAndMerge (now : Nat) (e : EnvManager) : EnvManager :=
  { fragments := sortFrags e.fragments
    merged := some (mergeFrags (mergedInit e) (sortFrags e.fragments))
    keySources := srcFrags (fun _ => []) (sortFrags e.fragments)
    sorted := true
    ctime := now }

/-- Abstract model of `time.Time.Format(time.RFC3339)` on the abstract
timestamps. -/
def fmtTime (t : Nat) : String :=
  toString t

/-- Go `EnvManager.BuildBash` as the list of lines written to the
destination file (each `Fprintf`/`Fprintln` call contributes one line). -/
def BuildBash (e : EnvManager) : Except String (List String) :=
  if e.sorted = false then
    Except.error "not build complete yet"
  else
    Except.ok
      (["# Env generated at " ++ fmtTime e.ctime,
        "export ENV_CTIME=\"" ++ fmtTime e.ctime ++ "\"", ""] ++
        e.fragments.flatMap (fun frag =>
          ["# --- Fragment: " ++ frag.name ++ " ---"] ++
          frag.env.map (fun kv => "export " ++ kv.1 ++ "=\"" ++ kv.2 ++ "\"") ++
          (frag.script.filter (fun sc => sc.sh == "bash")).map Script.data ++
          [""]))

/-- Go `EnvManager.BuildZsh` as the list of lines written. -/
def BuildZsh (e : EnvManager) : Except String (List String) :=
  if e.sorted = false then
    Except.error "not build complete yet"
  else
    Except.ok
      (["# Env generated at " ++ fmtTime e.ctime,
        "export ENV_CTIME=\"" ++ fmtTime e.ctime ++ "\""] ++
        e.fragments.flatMap (fun frag =>
          (if frag.name = "" then [] else ["# --- Fragment: " ++ frag.name ++ " ---"]) ++
          frag.env.map (fun kv => "export " ++ kv.1 ++ "=\"" ++ kv.2 ++ "\"") ++
          (frag.script.filter (fun sc => sc.sh == "zsh")).map Script.data ++
          [""]))

/-- Go `EnvManager.BuildPsh` as the list of lines written.  The script
filter is transcribed exactly as in the source: it keeps scripts whose
tag equals "pw". -/
def BuildPsh (e : EnvManager) : Except String (List String) :=
  if e.sorted = false then
    Except.error "not build complete yet"
  else
    Except.ok
      (["$Env:ENV_CTIME = \"" ++ fmtTime e.ctime ++ "\""] ++
        e.fragments.flatMap (fun frag =>
          (if frag.name = "" then [] else ["# --- Fragment: " ++ frag.name ++ " ---"]) ++
          frag.env.map (fun kv => "$Env:" ++ kv.1 ++ " = \"" ++ kv.2 ++ "\"") ++
          (frag.script.filter (fun sc => sc.sh == "pw")).map Script.data ++
          [""]))

/-- Go `EnvManager.WriteMeta`: the string written to the metadata file. -/
def WriteMeta (e : EnvManager) : Except String String :=
  if e.sorted = false then
    Except.error "not gen yet"
  else
    Except.ok (fmtTime e.ctime)

/-- Go struct `SearchResult`. -/
structure SearchResult where
  fragmentName : String
  key : String
  value : String
deriving Repr, DecidableEq

/-- The per-fragment body of the Go `Search` loop: appends one result per
env entry whose key or value matches, then one result per script whose raw
text matches. -/
def searchFrag (re : String → Bool) (acc : List SearchResult) (frag : EnvFragment) :
    List SearchResult :=
  let acc1 := frag.env.foldl
    (fun a kv =>
      if re kv.1 || re kv.2 then a ++ [⟨frag.name, kv.1, kv.2⟩] else a) acc
  frag.script.foldl
    (fun a sc =>
      if re sc.data then a ++ [⟨frag.name, "script[" ++ sc.sh ++ "]", sc.data⟩] else a)
    acc1

/-- Go `EnvManager.Search`.  The `regexp` package is an external
collaborator: `compile` returns `none` exactly when Go `regexp.Compile`
fails, and otherwise the compiled matcher.  As in the source, the
`sorted` gate is tested before the pattern is compiled. -/
def Search (compile : String → Option (String → Bool)) (e : EnvManager)
    (pattern : String) : Except String (List SearchResult) :=
  if e.sorted = false then
    Except.error "not build complete yet"
  else
    match compile pattern with
    | none => Except.error "invalid pattern"
    | some re => Except.ok (e.fragments.foldl (searchFrag re) [])

/-- Go `EnvManager.FeedFile` after the file has been read and split into
YAML documents: the decoder yields a stream of documents (`Except.error`
for a document that fails to parse; the stream ends at EOF).  Each decoded
fragment gets its `source` set, is validated, and is appended; the first
failing document aborts the loop with an error, keeping everything already
appended. -/
def feedDocs (systemEnv innerComponentEnv : String → Int) (fpath : String) :
    EnvManager → List (Except String EnvFragment) → EnvManager × Option String
  | e, [] => (e, none)
  | e, Except.error msg :: _ =>
      (e, some ("failed to parse YAML in " ++ fpath ++ ": " ++ msg))
  | e, Except.ok frag :: rest =>
      let frag1 := { frag with source := fpath }
      match validateFragment systemEnv innerComponentEnv frag1 with
      | Except.error msg =>
          (e, some ("validation failed for fragment " ++ frag1.name ++ " in " ++
            fpath ++ ": " ++ msg))
      | Except.ok _ =>
          feedDocs systemEnv innerComponentEnv fpath
            { e with fragments := e.fragments ++ [frag1] } rest

/-- The Go `dumpStruct` serialized by `SaveAllYaml` / read by `LoadAllYaml`
(YAML marshalling itself is the out-of-scope collaborator; `merged` and
`keySources` are not part of it). -/
structure DumpStruct where
  sorted : Bool
  ctime : Nat
  fragments : List EnvFragment
deriving Repr, DecidableEq

/-- Go `EnvManager.SaveAllYaml`: the serialized state. -/
def SaveAllYaml (e : EnvManager) : DumpStruct :=
  { sorted := e.sorted
    ctime := e.ctime
    fragments := e.fragments }

/-- Go `EnvManager.LoadAllYaml`: installs the loaded fragments, sorted flag
and ctime into the receiver, then re-runs `SortAndMerge`. -/
def LoadAllYaml (now : Nat) (e : EnvManager) (d : DumpStruct) : EnvManager :=
  SortAndMerge now
    { e with fragments := d.fragments, sorted := d.sorted, ctime := d.ctime }

/-! Specification-side helper functions used to state the claims. -/

/-- The keys of an association-list environment. -/
def envKeys (kvs : List (String × String)) : List String :=
  kvs.map Prod.fst

/-- Whether a fragment defines a key in its own env. -/
def definesKey (f : EnvFragment) (k : String) : Bool :=
  decide (k ∈ envKeys f.env)

/-- The value of the last binding of `k` in an association list (the value
a Go map holds after inserting the entries in iteration order). -/
def lookupLast : List (String × String) → String → Option String
  | [], _ => none
  | kv :: rest, k =>
    match lookupLast rest k with
    | some v => some v
    | none => if kv.1 = k then some kv.2 else none

/-- The value for `k` contributed by the last fragment in the list that
defines `k`. -/
def lookupFrags : List EnvFragment → String → Option String
  | [], _ => none
  | f :: rest, k =>
    match lookupFrags rest k with
    | some v => some v
    | none => lookupLast f.env k

/-- The last fragment in the list that defines `k`. -/
def lastDefiner : List EnvFragment → String → Option EnvFragment
  | [], _ => none
  | f :: rest, k =>
    match lastDefiner rest k with
    | some g => some g
    | none => if definesKey f k then some f else none

/-- The last element of a list, as an option. -/
def lastElem? : {α : Type} → List α → Option α
  | _, [] => none
  | _, [x] => some x
  | _, _ :: y :: rest => lastElem? (y :: rest)

/-- Read the merged value of a key (none when the merged map is still nil). -/
def mergedVal (e : EnvManager) (k : String) : Option String :=
  match e.merged with
  | none => none
  | some m => m k

/-! Basic lemmas about the merge folds. -/

theorem mergeEnv_apply (kvs : List (String × String)) (m : String → Option String)
    (k : String) :
    mergeEnv m kvs k = (lookupLast kvs k).elim (m k) some := by
  induction kvs generalizing m with
  | nil => rfl
  | cons kv rest ih =>
    show mergeEnv (mapInsert m kv.1 kv.2) rest k = _
    rw [ih]
    simp only [lookupLast]
    cases lookupLast rest k with
    | some v => rfl
    | none =>
      simp only [Option.elim, mapInsert]
      by_cases h : kv.1 = k
      · subst h
        simp
      · rw [if_neg h, if_neg (fun hh => h hh.symm)]

theorem lookupLast_cons (kv : String × String) (rest : List (String × String))
    (k : String) :
    lookupLast (kv :: rest) k =
      match lookupLast rest k with
      | some v => some v
      | none => if kv.1 = k then some kv.2 else none := rfl

theorem lookupFrags_cons (f : EnvFragment) (rest : List EnvFragment) (k : String) :
    lookupFrags (f :: rest) k =
      match lookupFrags rest k with
      | some v => some v
      | none => lookupLast f.env k := rfl

theorem lastDefiner_cons (f : EnvFragment) (rest : List EnvFragment) (k : String) :
    lastDefiner (f :: rest) k =
      match lastDefiner rest k with
      | some g => some g
      | none => if definesKey f k then some f else none := rfl

theorem lookupLast_cons_some {rest : List (String × String)} {k v : String}
    (kv : String × String) (h : lookupLast rest k = some v) :
    lookupLast (kv :: rest) k = some v := by
  rw [lookupLast_cons, h]

theorem lookupLast_cons_none {rest : List (String × String)} {k : String}
    (kv : String × String) (h : lookupLast rest k = none) :
    lookupLast (kv :: rest) k = if kv.1 = k then some kv.2 else none := by
  rw [lookupLast_cons, h]

theorem lookupFrags_cons_some {rest : List EnvFragment} {k v : String}
    (f : EnvFragment) (h : lookupFrags rest k = some v) :
    lookupFrags (f :: rest) k = some v := by
  rw [lookupFrags_cons, h]

theorem lookupFrags_cons_none {rest : List EnvFragment} {k : String}
    (f : EnvFragment) (h : lookupFrags rest k = none) :
    lookupFrags (f :: rest) k = lookupLast f.env k := by
  rw [lookupFrags_cons, h]

theorem lastDefiner_cons_some {rest : List EnvFragment} {k : String}
    {g : EnvFragment} (f : EnvFragment) (h : lastDefiner rest k = some g) :
    lastDefiner (f :: rest) k = some g := by
  rw [lastDefiner_cons, h]

theorem lastDefiner_cons_none {rest : List EnvFragment} {k : String}
    (f : EnvFragment) (h : lastDefiner rest k = none) :
    lastDefiner (f :: rest) k = if definesKey f k then some f else none := by
  rw [lastDefiner_cons, h]

theorem mem_envKeys_cons (kv : String × String) (rest : List (String × String))
    (k : String) :
    k ∈ envKeys (kv :: rest) ↔ (kv.1 = k ∨ k ∈ envKeys rest) := by
  simp [envKeys, eq_comm]

theorem lookupLast_eq_none_iff (kvs : List (String × String)) (k : String) :
    lookupLast kvs k = none ↔ k ∉ envKeys kvs := by
  induction kvs with
  | nil => simp [lookupLast, envKeys]
  | cons kv rest ih =>
    rw [lookupLast_cons, mem_envKeys_cons]
    cases h : lookupLast rest k with
    | some v =>
      have hin : k ∈ envKeys rest := by
        by_contra hc
        rw [← ih] at hc
        rw [h] at hc
        exact Option.noConfusion hc
      constructor
      · intro hc
        exact Option.noConfusion hc
      · intro hnm
        exact absurd (Or.inr hin) hnm
    | none =>
      by_cases hk : kv.1 = k
      · simp [hk]
      · simp [hk, ih.mp h]

theorem mergeFrags_apply (frags : List EnvFragment) (m : String → Option String)
    (k : String) :
    mergeFrags m frags k = (lookupFrags frags k).elim (m k) some := by
  induction frags generalizing m with
  | nil => rfl
  | cons f rest ih =>
    show mergeFrags (mergeEnv m f.env) rest k = _
    rw [ih]
    simp only [lookupFrags]
    cases lookupFrags rest k with
    | some v => rfl
    | none =>
      simp only [Option.elim]
      exact mergeEnv_apply f.env m k

theorem definesKey_iff_lookupLast_ne_none (f : EnvFragment) (k : String) :
    definesKey f k = true ↔ lookupLast f.env k ≠ none := by
  rw [definesKey, decide_eq_true_eq, ne_eq, lookupLast_eq_none_iff, not_not]

theorem lastDefiner_defines {l : List EnvFragment} {k : String} {f : EnvFragment}
    (h : lastDefiner l k = some f) : definesKey f k = true := by
  induction l with
  | nil => exact Option.noConfusion h
  | cons g rest ih =>
    cases hr : lastDefiner rest k with
    | some g2 =>
      rw [lastDefiner_cons_some g hr] at h
      cases h
      exact ih hr
    | none =>
      rw [lastDefiner_cons_none g hr] at h
      by_cases hd : definesKey g k
      · rw [if_pos hd] at h
        cases h
        exact hd
      · rw [if_neg hd] at h
        exact Option.noConfusion h

theorem lastDefiner_mem {l : List EnvFragment} {k : String} {f : EnvFragment}
    (h : lastDefiner l k = some f) : f ∈ l := by
  induction l with
  | nil => exact Option.noConfusion h
  | cons g rest ih =>
    cases hr : lastDefiner rest k with
    | some g2 =>
      rw [lastDefiner_cons_some g hr] at h
      cases h
      exact List.mem_cons_of_mem g (ih hr)
    | none =>
      rw [lastDefiner_cons_none g hr] at h
      by_cases hd : definesKey g k
      · rw [if_pos hd] at h
        rw [← Option.some.inj h]
        exact List.mem_cons_self g rest
      · rw [if_neg hd] at h
        exact Option.noConfusion h

theorem lastDefiner_eq_none_iff (l : List EnvFragment) (k : String) :
    lastDefiner l k = none ↔ ∀ f ∈ l, definesKey f k = false := by
  induction l with
  | nil => simp [lastDefiner]
  | cons g rest ih =>
    cases hr : lastDefiner rest k with
    | some g2 =>
      rw [lastDefiner_cons_some g hr]
      constructor
      · intro hc
        exact Option.noConfusion hc
      · intro hall
        have hfa : definesKey g2 k = false :=
          hall g2 (List.mem_cons_of_mem g (lastDefiner_mem hr))
        rw [lastDefiner_defines hr] at hfa
        exact Bool.noConfusion hfa
    | none =>
      rw [lastDefiner_cons_none g hr]
      have hrest : ∀ f ∈ rest, definesKey f k = false := ih.mp hr
      by_cases hd : definesKey g k
      · rw [if_pos hd]
        constructor
        · intro hc
          exact Option.noConfusion hc
        · intro hall
          rw [hall g (List.mem_cons_self g rest)] at hd
          exact Bool.noConfusion hd
      · rw [if_neg hd]
        constructor
        · intro _ f hf
          rcases List.mem_cons.mp hf with hf | hf
          · subst hf
            exact Bool.of_not_eq_true hd
          · exact hrest f hf
        · intro _
          rfl

theorem lookupFrags_eq_lastDefiner (l : List EnvFragment) (k : String) :
    lookupFrags l k = (lastDefiner l k).bind (fun f => lookupLast f.env k) := by
  induction l with
  | nil => rfl
  | cons f rest ih =>
    cases hr : lastDefiner rest k with
    | some g =>
      rw [lastDefiner_cons_some f hr]
      have hne : lookupLast g.env k ≠ none :=
        (definesKey_iff_lookupLast_ne_none g k).mp (lastDefiner_defines hr)
      cases hv : lookupLast g.env k with
      | some v =>
        rw [lookupFrags_cons_some f (by rw [ih, hr, Option.some_bind, hv])]
        rw [Option.some_bind, hv]
      | none => exact absurd hv hne
    | none =>
      have hfr : lookupFrags rest k = none := by
        rw [ih, hr, Option.none_bind]
      rw [lookupFrags_cons_none f hfr, lastDefiner_cons_none f hr]
      by_cases hd : definesKey f k
      · rw [if_pos hd, Option.some_bind]
      · rw [if_neg hd, Option.none_bind]
        rw [lookupLast_eq_none_iff]
        intro hc
        rw [definesKey, decide_eq_true_eq] at hd
        exact hd hc

/-! Lemmas about the provenance folds. -/

theorem srcAppend_fold_apply (kvs : List (String × String)) (n : String)
    (s : String → List String) (q : String) :
    (kvs.foldl (fun acc kv => srcAppend acc kv.1 n) s) q =
      s q ++ List.replicate ((envKeys kvs).count q) n := by
  induction kvs generalizing s with
  | nil => simp [envKeys]
  | cons kv rest ih =>
    show (rest.foldl (fun acc kv2 => srcAppend acc kv2.1 n) (srcAppend s kv.1 n)) q = _
    rw [ih]
    have hcount : (envKeys (kv :: rest)).count q =
        (envKeys rest).count q + if kv.1 == q then 1 else 0 := by
      rw [envKeys, List.map_cons]
      exact List.count_cons q kv.1 (envKeys rest)
    rw [hcount]
    by_cases hk : kv.1 = q
    · rw [if_pos (beq_iff_eq.mpr hk)]
      have hsrc : srcAppend s kv.1 n q = s q ++ [n] := by
        simp only [srcAppend]
        rw [if_pos hk.symm, hk]
      rw [hsrc, List.append_assoc, List.singleton_append, ← List.replicate_succ]
    · rw [if_neg (by simp [hk])]
      have hsrc : srcAppend s kv.1 n q = s q := by
        simp only [srcAppend]
        rw [if_neg (fun hh => hk hh.symm)]
      rw [hsrc, Nat.add_zero]

theorem srcFrag_apply_nodup (f : EnvFragment) (hnd : (envKeys f.env).Nodup)
    (s : String → List String) (q : String) :
    srcFrag s f q = s q ++ (if definesKey f q then [f.name] else []) := by
  rw [srcFrag, srcAppend_fold_apply]
  congr 1
  by_cases hq : q ∈ envKeys f.env
  · rw [if_pos (by rw [definesKey]; exact decide_eq_true hq)]
    rw [List.count_eq_one_of_mem hnd hq]
    rfl
  · rw [if_neg (by rw [definesKey]; exact (Bool.not_eq_true _).mpr (decide_eq_false hq))]
    rw [List.count_eq_zero.mpr hq]
    rfl

theorem srcFrags_apply (frags : List EnvFragment)
    (hnd : ∀ f ∈ frags, (envKeys f.env).Nodup)
    (s : String → List String) (q : String) :
    srcFrags s frags q =
      s q ++ (frags.filter (fun f => definesKey f q)).map EnvFragment.name := by
  induction frags generalizing s with
  | nil => simp [srcFrags]
  | cons f rest ih =>
    show srcFrags (srcFrag s f) rest q = _
    rw [ih (fun g hg => hnd g (List.mem_cons_of_mem f hg))]
    rw [srcFrag_apply_nodup f (hnd f (List.mem_cons_self f rest)) s q]
    simp only [List.filter_cons]
    by_cases hd : definesKey f q
    · rw [if_pos hd, if_pos hd, List.map_cons, List.append_assoc,
        List.singleton_append]
    · rw [if_neg hd, if_neg hd, List.append_nil]

/-! Lemmas about lastElem?. -/

theorem lastElem?_cons_cons {α : Type} (x y : α) (rest : List α) :
    lastElem? (x :: y :: rest) = lastElem? (y :: rest) := by
  simp only [lastElem?]

theorem lastElem?_isSome {α : Type} (x : α) (xs : List α) :
    ∃ z, lastElem? (x :: xs) = some z := by
  induction xs generalizing x with
  | nil => exact ⟨x, by simp only [lastElem?]⟩
  | cons y rest ih =>
    rw [lastElem?_cons_cons]
    exact ih y

theorem lastElem?_filter_names (l : List EnvFragment) (k : String) :
    lastElem? ((l.filter (fun f => definesKey f k)).map EnvFragment.name) =
      (lastDefiner l k).map EnvFragment.name := by
  induction l with
  | nil => simp [lastElem?, lastDefiner]
  | cons f rest ih =>
    simp only [List.filter_cons]
    by_cases hd : definesKey f k
    · rw [if_pos hd, List.map_cons]
      cases hr : lastDefiner rest k with
      | some g =>
        rw [lastDefiner_cons_some f hr]
        rw [hr] at ih
        cases hlist : (rest.filter (fun f2 => definesKey f2 k)).map EnvFragment.name with
        | nil =>
          rw [hlist] at ih
          simp only [Option.map_some'] at ih
          exact absurd ih (by simp [lastElem?])
        | cons a as =>
          rw [hlist] at ih
          rw [lastElem?_cons_cons]
          exact ih
      | none =>
        rw [lastDefiner_cons_none f hr, if_pos hd]
        rw [hr] at ih
        simp only [Option.map_none'] at ih
        cases hlist : (rest.filter (fun f2 => definesKey f2 k)).map EnvFragment.name with
        | nil =>
          simp [lastElem?]
        | cons a as =>
          rw [hlist] at ih
          rcases lastElem?_isSome a as with ⟨z, hz⟩
          rw [hz] at ih
          exact absurd ih (by simp)
    · rw [if_neg hd]
      cases hr : lastDefiner rest k with
      | some g =>
        rw [lastDefiner_cons_some f hr]
        rw [hr] at ih
        exact ih
      | none =>
        rw [lastDefiner_cons_none f hr, if_neg hd]
        rw [hr] at ih
        exact ih

/-- For an association list with no duplicate keys the last-binding lookup
of the merge fold agrees with the standard first-binding lookup. -/
theorem lookupLast_eq_lookup (kvs : List (String × String)) (k : String)
    (hnd : (envKeys kvs).Nodup) : lookupLast kvs k = kvs.lookup k := by
  induction kvs with
  | nil => rfl
  | cons kv rest ih =>
    obtain ⟨a, b⟩ := kv
    have hk1 : envKeys ((a, b) :: rest) = a :: envKeys rest := rfl
    rw [hk1] at hnd
    have hnotin : a ∉ envKeys rest := (List.nodup_cons.mp hnd).1
    have hnd' : (envKeys rest).Nodup := (List.nodup_cons.mp hnd).2
    by_cases hk : a = k
    · subst hk
      have hnone : lookupLast rest a = none :=
        (lookupLast_eq_none_iff rest a).mpr hnotin
      rw [lookupLast_cons_none (a, b) hnone, if_pos rfl, List.lookup_cons_self]
    · have hlhs : lookupLast ((a, b) :: rest) k = lookupLast rest k := by
        cases hv : lookupLast rest k with
        | some v => exact lookupLast_cons_some (a, b) hv
        | none =>
          rw [lookupLast_cons_none (a, b) hv, if_neg hk]
      rw [hlhs, ih hnd', List.lookup_cons,
        beq_false_of_ne (fun hh => hk hh.symm)]

/-! Lemmas about the stable sort. -/

theorem fragLE_trans (a b c : EnvFragment) (h1 : fragLE a b) (h2 : fragLE b c) :
    fragLE a c := by
  rw [fragLE, decide_eq_true_eq] at h1 h2 ⊢
  exact le_trans h1 h2

theorem fragLE_total (a b : EnvFragment) : fragLE a b || fragLE b a := by
  rw [fragLE, fragLE]
  rcases le_total a.priority b.priority with h | h
  · simp [h]
  · simp [h]

theorem sortFrags_perm (l : List EnvFragment) : List.Perm (sortFrags l) l :=
  List.mergeSort_perm l fragLE

theorem mem_sortFrags {f : EnvFragment} {l : List EnvFragment} :
    f ∈ sortFrags l ↔ f ∈ l :=
  List.mem_mergeSort

theorem sortFrags_pairwise (l : List EnvFragment) :
    (sortFrags l).Pairwise (fun a b => fragLE a b = true) :=
  List.sorted_mergeSort (fun a b c => fragLE_trans a b c) (fun a b => fragLE_total a b) l

theorem sortFrags_of_sorted {l : List EnvFragment}
    (h : l.Pairwise (fun a b => fragLE a b = true)) : sortFrags l = l :=
  List.mergeSort_of_sorted h

theorem sortFrags_idem (l : List EnvFragment) :
    sortFrags (sortFrags l) = sortFrags l :=
  sortFrags_of_sorted (sortFrags_pairwise l)

/-! Claim C1. -/

/-- C1: for every key defined by at least one fragment (with the Go-map
guarantee that keys are unique within each fragment), after `SortAndMerge`
the merged value of the key is the `env` value of the last fragment in
priority-sorted order that defines it, and the key's provenance list is
non-empty and ends with that fragment's name. -/
theorem C1_last_writer_wins (e : EnvManager) (now : Nat) (k : String)
    (hnd : ∀ f ∈ e.fragments, (envKeys f.env).Nodup)
    (hdef : ∃ f ∈ e.fragments, definesKey f k = true) :
    ∃ f, lastDefiner (SortAndMerge now e).fragments k = some f ∧
      mergedVal (SortAndMerge now e) k = f.env.lookup k ∧
      (SortAndMerge now e).keySources k ≠ [] ∧
      lastElem? ((SortAndMerge now e).keySources k) = some f.name := by
  obtain ⟨f0, hf0mem, hf0def⟩ := hdef
  have hfrags : (SortAndMerge now e).fragments = sortFrags e.fragments := rfl
  have hexists : ¬ (∀ f ∈ sortFrags e.fragments, definesKey f k = false) := by
    intro hall
    have hf := hall f0 (mem_sortFrags.mpr hf0mem)
    rw [hf0def] at hf
    exact Bool.noConfusion hf
  cases hldc : lastDefiner (sortFrags e.fragments) k with
  | none => exact absurd ((lastDefiner_eq_none_iff _ k).mp hldc) hexists
  | some f =>
    have hfmem : f ∈ e.fragments := mem_sortFrags.mp (lastDefiner_mem hldc)
    have hfnd : (envKeys f.env).Nodup := hnd f hfmem
    have hfdef : definesKey f k = true := lastDefiner_defines hldc
    have hks : (SortAndMerge now e).keySources k =
        ((sortFrags e.fragments).filter (fun g => definesKey g k)).map
          EnvFragment.name := by
      show srcFrags (fun _ => []) (sortFrags e.fragments) k = _
      rw [srcFrags_apply _ (fun g hg => hnd g (mem_sortFrags.mp hg)) _ k,
        List.nil_append]
    have hlast : lastElem? ((SortAndMerge now e).keySources k) = some f.name := by
      rw [hks, lastElem?_filter_names, hldc, Option.map_some']
    refine ⟨f, by rw [hfrags, hldc], ?_, ?_, hlast⟩
    · show mergeFrags (mergedInit e) (sortFrags e.fragments) k = f.env.lookup k
      rw [mergeFrags_apply, lookupFrags_eq_lastDefiner, hldc, Option.some_bind]
      rw [lookupLast_eq_lookup f.env k hfnd]
      cases hv : f.env.lookup k with
      | some v => rfl
      | none =>
        have hne := (definesKey_iff_lookupLast_ne_none f k).mp hfdef
        rw [lookupLast_eq_lookup f.env k hfnd] at hne
        exact absurd hv hne
    · intro hc
      rw [hc] at hlast
      simp only [lastElem?] at hlast
      exact Option.noConfusion hlast

/-- Concrete instance for C1: two fragments at priorities 10 and 150 both
define key K; the merge is dominated by the priority-150 fragment. -/
def wFragLow : EnvFragment :=
  { name := "system_base", priority := 10, env := [("K", "low")],
    script := [], source := "s.yaml" }

def wFragHigh : EnvFragment :=
  { name := "user_service", priority := 150, env := [("K", "high")],
    script := [], source := "u.yaml" }

def wMgrC1 : EnvManager :=
  { freshManager with fragments := [wFragLow, wFragHigh] }

/-- Witness for C1 at a concrete manager. -/
theorem C1_witness :
    ∃ f, lastDefiner (SortAndMerge 5 wMgrC1).fragments "K" = some f ∧
      mergedVal (SortAndMerge 5 wMgrC1) "K" = f.env.lookup "K" ∧
      (SortAndMerge 5 wMgrC1).keySources "K" ≠ [] ∧
      lastElem? ((SortAndMerge 5 wMgrC1).keySources "K") = some f.name :=
  C1_last_writer_wins wMgrC1 5 "K" (by decide) (by decide)

/-! Claims C5 and C6. -/

/-- C5: merge is idempotent: a second `SortAndMerge` with no intervening
fragment additions leaves both the merged mapping and the provenance
mapping unchanged, whatever timestamps the two runs observe. -/
theorem C5_sortAndMerge_idempotent (e : EnvManager) (n1 n2 : Nat) :
    (SortAndMerge n2 (SortAndMerge n1 e)).merged = (SortAndMerge n1 e).merged ∧
    (SortAndMerge n2 (SortAndMerge n1 e)).keySources =
      (SortAndMerge n1 e).keySources := by
  have hsort : sortFrags (SortAndMerge n1 e).fragments = sortFrags e.fragments :=
    sortFrags_idem e.fragments
  constructor
  · show some (mergeFrags (mergedInit (SortAndMerge n1 e))
        (sortFrags (SortAndMerge n1 e).fragments)) =
      some (mergeFrags (mergedInit e) (sortFrags e.fragments))
    rw [hsort]
    congr 1
    funext q
    have hinit : mergedInit (SortAndMerge n1 e) =
        mergeFrags (mergedInit e) (sortFrags e.fragments) := rfl
    rw [hinit]
    simp only [mergeFrags_apply]
    cases lookupFrags (sortFrags e.fragments) q with
    | some v => rfl
    | none => rfl
  · show srcFrags (fun _ => []) (sortFrags (SortAndMerge n1 e).fragments) =
      srcFrags (fun _ => []) (sortFrags e.fragments)
    rw [hsort]

/-- C6: the sort performed by `SortAndMerge` is stable: for every priority
value, the subsequence of fragments having exactly that priority is
unchanged by the merge, so any two fragments of equal priority keep their
relative order. -/
theorem C6_stable_sort (e : EnvManager) (now : Nat) (p : Int) :
    (SortAndMerge now e).fragments.filter (fun f => f.priority == p) =
      e.fragments.filter (fun f => f.priority == p) := by
  have hfr : (SortAndMerge now e).fragments = sortFrags e.fragments := rfl
  rw [hfr]
  have hpw : (e.fragments.filter (fun f => f.priority == p)).Pairwise
      (fun a b => fragLE a b = true) := by
    apply List.pairwise_of_forall_mem_list
    intro a ha b hb
    have hap : a.priority = p := beq_iff_eq.mp (List.mem_filter.mp ha).2
    have hbp : b.priority = p := beq_iff_eq.mp (List.mem_filter.mp hb).2
    rw [fragLE, decide_eq_true_eq, hap, hbp]
  have hsub : List.Sublist (e.fragments.filter (fun f => f.priority == p))
      (sortFrags e.fragments) :=
    List.sublist_mergeSort (fun a b c => fragLE_trans a b c)
      (fun a b => fragLE_total a b) hpw (List.filter_sublist e.fragments)
  have hsub2 : List.Sublist (e.fragments.filter (fun f => f.priority == p))
      ((sortFrags e.fragments).filter (fun f => f.priority == p)) := by
    have hs := hsub.filter (fun f => f.priority == p)
    simp only [List.filter_filter, Bool.and_self] at hs
    exact hs
  have hlen : ((sortFrags e.fragments).filter (fun f => f.priority == p)).length =
      (e.fragments.filter (fun f => f.priority == p)).length :=
    ((sortFrags_perm e.fragments).filter (fun f => f.priority == p)).length_eq
  exact (hsub2.eq_of_length hlen.symm).symm

/-! Claim C2: the system-tier validation branch. -/

/-- A classification table registering one system fragment name, standing
for a populated `SystemEnv` Go map. -/
def sysTable : String → Int :=
  fun n => if n = "base_system" then 1 else 0

/-- An empty classification table (the Go zero-value map). -/
def zeroTable : String → Int :=
  fun _ => 0

/-- A system-tier fragment with a negative priority. -/
def negSysFrag : EnvFragment :=
  { name := "base_system", priority := -1, env := [], script := [], source := "" }

/-- C2 (code bug): the source only tests `priority > 19` for system-tier
fragments, so a system fragment with negative priority — outside the
documented range `[0, 19]` — passes validation, although the code's own
error message says the priority "must be 0-19". -/
theorem C2_validate_accepts_negative_system_priority :
    sysTable negSysFrag.name > 0 ∧ negSysFrag.priority < 0 ∧
    validateFragment sysTable zeroTable negSysFrag = Except.ok () :=
  ⟨by decide, by decide, rfl⟩

/-! Claims C3 and C9: the merged map is not reset by `SortAndMerge`. -/

/-- A fragment defining only key OLD. -/
def oldFrag : EnvFragment :=
  { name := "old_frag", priority := 100, env := [("OLD", "x")],
    script := [], source := "a.yaml" }

/-- A fragment defining only key NEW. -/
def newFrag : EnvFragment :=
  { name := "new_frag", priority := 100, env := [("NEW", "y")],
    script := [], source := "b.yaml" }

/-- A fresh manager fed `oldFrag`, then merged. -/
def mgrAfterFirstMerge : EnvManager :=
  SortAndMerge 1 { freshManager with fragments := [oldFrag] }

/-- The same manager after loading a saved state whose fragment list is
just `newFrag` (as Go `LoadAllYaml` does, replacing `e.fragments` and
re-running `SortAndMerge`). -/
def mgrAfterReload : EnvManager :=
  LoadAllYaml 2 mgrAfterFirstMerge
    { sorted := true, ctime := 1, fragments := [newFrag] }

/-- C3 (code bug): `SortAndMerge` recreates `keySources` but keeps a
non-nil `merged` map, so after the fragment set is replaced and merge
re-runs, the merged map still contains the stale key OLD that no current
fragment defines — and with an empty provenance list for it. -/
theorem C3_merged_not_reset :
    mergedVal mgrAfterReload "OLD" = some "x" ∧
    (∀ f ∈ mgrAfterReload.fragments, definesKey f "OLD" = false) ∧
    mgrAfterReload.keySources "OLD" = [] := by
  refine ⟨?_, ?_, ?_⟩ <;>
    simp only [mgrAfterReload, mgrAfterFirstMerge, LoadAllYaml, SortAndMerge,
      mergedVal, mergedInit, sortFrags, List.mergeSort_singleton,
      freshManager] <;>
    decide

/-- The result of serializing `mgrAfterReload` and restoring it into a
fresh manager (Go `SaveAllYaml` then `LoadAllYaml`, which re-merges). -/
def mgrRoundTrip : EnvManager :=
  LoadAllYaml 3 freshManager (SaveAllYaml mgrAfterReload)

/-- C9 (code bug): save/restore into a fresh manager rebuilds `merged`
from the fragments alone, so the stale key OLD held by `mgrAfterReload`
(an artifact of `SortAndMerge` never clearing `merged`) is absent after
the round trip: the restored merge output differs from the original. -/
theorem C9_round_trip_differs :
    mergedVal mgrAfterReload "OLD" = some "x" ∧
    mergedVal mgrRoundTrip "OLD" = none := by
  constructor <;>
    simp only [mgrRoundTrip, mgrAfterReload, mgrAfterFirstMerge, SaveAllYaml,
      LoadAllYaml, SortAndMerge, mergedVal, mergedInit, sortFrags,
      List.mergeSort_singleton, freshManager] <;>
    decide

/-! Claim C4: PowerShell script emission. -/

/-- A PowerShell script body tagged "pwsh", as in the sample fragment the
package itself generates (`ExampleEnvYaml` writes `sh: pwsh`). -/
def pwshScriptData : String :=
  "Write-Host PowerShell setup"

/-- A PowerShell script body tagged "powershell", the tag named in the
Script struct's own comment ("shell type: bash, zsh, powershell"). -/
def powershellScriptData : String :=
  "Write-Host PowerShell setup two"

/-- A fragment carrying the two documented PowerShell script tags. -/
def pshFrag : EnvFragment :=
  { name := "sample_service", priority := 100,
    env := [("SERVICE_PORT", "8080")],
    script := [{ sh := "pwsh", data := pwshScriptData },
               { sh := "powershell", data := powershellScriptData }],
    source := "example.yaml" }

/-- A merged manager holding `pshFrag`. -/
def pshMgr : EnvManager :=
  { fragments := [pshFrag]
    merged := some (fun _ => none)
    keySources := fun _ => []
    sorted := true
    ctime := 7 }

/-- C4 (code bug): `BuildPsh` filters scripts with tag "pw", so scripts
carrying the documented PowerShell tags ("pwsh" as generated by
`ExampleEnvYaml`, "powershell" as in the Script struct comment) are
silently dropped: the emitted file contains the timestamp header, the
fragment header and the env assignment, but neither script body. -/
theorem C4_buildPsh_drops_documented_powershell_scripts :
    BuildPsh pshMgr = Except.ok
      ["$Env:ENV_CTIME = \"7\"",
       "# --- Fragment: sample_service ---",
       "$Env:SERVICE_PORT = \"8080\"",
       ""] ∧
    pwshScriptData ∉
      ["$Env:ENV_CTIME = \"7\"",
       "# --- Fragment: sample_service ---",
       "$Env:SERVICE_PORT = \"8080\"",
       ""] ∧
    powershellScriptData ∉
      ["$Env:ENV_CTIME = \"7\"",
       "# --- Fragment: sample_service ---",
       "$Env:SERVICE_PORT = \"8080\"",
       ""] :=
  ⟨rfl, by decide, by decide⟩

/-! Claim C7: the search output, characterized declaratively. -/

/-- Declarative description of the results one fragment contributes to a
search: one result per env entry whose key or value matches, followed by
one result per script whose raw text matches. -/
def fragResults (re : String → Bool) (frag : EnvFragment) : List SearchResult :=
  (frag.env.filter (fun kv => re kv.1 || re kv.2)).map
    (fun kv => { fragmentName := frag.name, key := kv.1, value := kv.2 }) ++
  (frag.script.filter (fun sc => re sc.data)).map
    (fun sc => { fragmentName := frag.name,
                 key := "script[" ++ sc.sh ++ "]", value := sc.data })

theorem envFold_eq (re : String → Bool) (nm : String) (kvs : List (String × String)) :
    ∀ acc : List SearchResult,
      kvs.foldl (fun a kv => if re kv.1 || re kv.2 then
          a ++ [{ fragmentName := nm, key := kv.1, value := kv.2 }] else a) acc =
        acc ++ (kvs.filter (fun kv => re kv.1 || re kv.2)).map
          (fun kv => { fragmentName := nm, key := kv.1, value := kv.2 }) := by
  induction kvs with
  | nil =>
    intro acc
    simp
  | cons kv rest ih =>
    intro acc
    simp only [List.foldl_cons, List.filter_cons]
    by_cases hp : re kv.1 || re kv.2
    · rw [if_pos hp, if_pos hp, ih, List.map_cons, List.append_assoc,
        List.singleton_append]
    · rw [if_neg hp, if_neg hp, ih]

theorem scriptFold_eq (re : String → Bool) (nm : String) (scs : List Script) :
    ∀ acc : List SearchResult,
      scs.foldl (fun a sc => if re sc.data then
          a ++ [{ fragmentName := nm,
                  key := "script[" ++ sc.sh ++ "]", value := sc.data }] else a) acc =
        acc ++ (scs.filter (fun sc => re sc.data)).map
          (fun sc => { fragmentName := nm,
                       key := "script[" ++ sc.sh ++ "]", value := sc.data }) := by
  induction scs with
  | nil =>
    intro acc
    simp
  | cons sc rest ih =>
    intro acc
    simp only [List.foldl_cons, List.filter_cons]
    by_cases hp : re sc.data
    · rw [if_pos hp, if_pos hp, ih, List.map_cons, List.append_assoc,
        List.singleton_append]
    · rw [if_neg hp, if_neg hp, ih]

theorem searchFrag_eq (re : String → Bool) (acc : List SearchResult)
    (frag : EnvFragment) :
    searchFrag re acc frag = acc ++ fragResults re frag := by
  show frag.script.foldl _ (frag.env.foldl _ acc) = _
  rw [envFold_eq re frag.name frag.env acc,
    scriptFold_eq re frag.name frag.script _,
    fragResults, List.append_assoc]

theorem searchLoop_eq (re : String → Bool) (frags : List EnvFragment) :
    ∀ acc : List SearchResult,
      frags.foldl (searchFrag re) acc = acc ++ frags.flatMap (fragResults re) := by
  induction frags with
  | nil =>
    intro acc
    simp
  | cons f rest ih =>
    intro acc
    simp only [List.foldl_cons, List.flatMap_cons]
    rw [searchFrag_eq, ih, List.append_assoc]

/-- C7: a successful search scans each fragment's own env (never the
merged map) with no deduplication: the result list is exactly, in fragment
scan order, one result per env entry whose key or value matches, then one
result per script whose raw text matches — so a key defined by two
fragments yields two results even though only one value survives the
merge. -/
theorem C7_search_scans_raw_fragments (compile : String → Option (String → Bool))
    (e : EnvManager) (pattern : String) (re : String → Bool)
    (hs : e.sorted = true) (hc : compile pattern = some re) :
    Search compile e pattern = Except.ok (e.fragments.flatMap (fragResults re)) := by
  rw [Search, hs, hc]
  simp only [Bool.true_eq_false, if_false]
  rw [searchLoop_eq re e.fragments [], List.nil_append]

/-- Concrete matcher and fragments for the C7 witness: two fragments both
define APP_HOME. -/
def wRe : String → Bool :=
  fun s => s == "APP_HOME"

def wCompile : String → Option (String → Bool) :=
  fun p => if p = "APP_HOME" then some wRe else none

def wFragA : EnvFragment :=
  { name := "frag_a", priority := 100, env := [("APP_HOME", "/opt/a")],
    script := [], source := "a.yaml" }

def wFragB : EnvFragment :=
  { name := "frag_b", priority := 150, env := [("APP_HOME", "/opt/b")],
    script := [], source := "b.yaml" }

def wMgrC7 : EnvManager :=
  { fragments := [wFragA, wFragB]
    merged := some (fun _ => none)
    keySources := fun _ => []
    sorted := true
    ctime := 0 }

/-- Witness for C7: searching APP_HOME over two fragments that both define
it returns two results, one per fragment. -/
theorem C7_witness :
    Search wCompile wMgrC7 "APP_HOME" =
      Except.ok [{ fragmentName := "frag_a", key := "APP_HOME", value := "/opt/a" },
                 { fragmentName := "frag_b", key := "APP_HOME", value := "/opt/b" }] := by
  rw [C7_search_scans_raw_fragments wCompile wMgrC7 "APP_HOME" wRe rfl rfl]
  rfl

/-! Claim C8: error gating. -/

/-- C8: a search fails exactly when no merge has ever run or the pattern
does not compile — with the not-merged check performed first — and the
same gate makes every emission adapter and the meta writer fail on an
unmerged manager. -/
theorem C8_error_gating (compile : String → Option (String → Bool))
    (e : EnvManager) (pattern : String) :
    ((∃ msg, Search compile e pattern = Except.error msg) ↔
      (e.sorted = false ∨ compile pattern = none)) ∧
    (e.sorted = false →
      Search compile e pattern = Except.error "not build complete yet" ∧
      BuildBash e = Except.error "not build complete yet" ∧
      BuildZsh e = Except.error "not build complete yet" ∧
      BuildPsh e = Except.error "not build complete yet" ∧
      WriteMeta e = Except.error "not gen yet") := by
  cases hs : e.sorted with
  | false =>
    constructor
    · constructor
      · intro _
        exact Or.inl rfl
      · intro _
        exact ⟨"not build complete yet", by simp [Search, hs]⟩
    · intro _
      refine ⟨?_, ?_, ?_, ?_, ?_⟩ <;>
        simp [Search, BuildBash, BuildZsh, BuildPsh, WriteMeta, hs]
  | true =>
    constructor
    · cases hc : compile pattern with
      | none =>
        constructor
        · intro _
          exact Or.inr rfl
        · intro _
          exact ⟨"invalid pattern", by simp [Search, hs, hc]⟩
      | some re =>
        constructor
        · rintro ⟨msg, hmsg⟩
          simp [Search, hs, hc] at hmsg
        · rintro (h | h)
          · exact absurd h (by simp)
          · exact absurd h (by simp)
    · intro h
      exact absurd h (by simp)

/-- Witness for C8: every gated operation fails on a fresh, never-merged
manager, with the not-merged error even though the pattern would not
compile either. -/
theorem C8_witness :
    Search wCompile freshManager "]invalid[" = Except.error "not build complete yet" ∧
    BuildBash freshManager = Except.error "not build complete yet" ∧
    BuildZsh freshManager = Except.error "not build complete yet" ∧
    BuildPsh freshManager = Except.error "not build complete yet" ∧
    WriteMeta freshManager = Except.error "not gen yet" :=
  (C8_error_gating wCompile freshManager "]invalid[").2 rfl

/-! Claim C10: FeedFile is not atomic per file. -/

theorem feedDocs_ok_valid (systemEnv innerComponentEnv : String → Int)
    (fpath : String) (e : EnvManager) (frag : EnvFragment)
    (rest : List (Except String EnvFragment))
    (hval : validateFragment systemEnv innerComponentEnv
      { frag with source := fpath } = Except.ok ()) :
    feedDocs systemEnv innerComponentEnv fpath e (Except.ok frag :: rest) =
      feedDocs systemEnv innerComponentEnv fpath
        { e with fragments := e.fragments ++ [{ frag with source := fpath }] }
        rest := by
  show (match validateFragment systemEnv innerComponentEnv
      { frag with source := fpath } with
    | Except.error msg =>
        (e, some ("validation failed for fragment " ++
          ({ frag with source := fpath } : EnvFragment).name ++ " in " ++
          fpath ++ ": " ++ msg))
    | Except.ok _ =>
        feedDocs systemEnv innerComponentEnv fpath
          { e with fragments := e.fragments ++ [{ frag with source := fpath }] }
          rest) = _
  rw [hval]

theorem feedDocs_ok_invalid (systemEnv innerComponentEnv : String → Int)
    (fpath : String) (e : EnvManager) (frag : EnvFragment) (msg : String)
    (rest : List (Except String EnvFragment))
    (hval : validateFragment systemEnv innerComponentEnv
      { frag with source := fpath } = Except.error msg) :
    feedDocs systemEnv innerComponentEnv fpath e (Except.ok frag :: rest) =
      (e, some ("validation failed for fragment " ++
        ({ frag with source := fpath } : EnvFragment).name ++ " in " ++
        fpath ++ ": " ++ msg)) := by
  show (match validateFragment systemEnv innerComponentEnv
      { frag with source := fpath } with
    | Except.error msg =>
        (e, some ("validation failed for fragment " ++
          ({ frag with source := fpath } : EnvFragment).name ++ " in " ++
          fpath ++ ": " ++ msg))
    | Except.ok _ =>
        feedDocs systemEnv innerComponentEnv fpath
          { e with fragments := e.fragments ++ [{ frag with source := fpath }] }
          rest) = _
  rw [hval]

/-- C10: feeding a multi-document file is not atomic: if every document of
a prefix parses and validates but the next document is a parse error or
fails validation, `FeedFile` reports an error while the fragments from the
good prefix remain appended to the store. -/
theorem C10_feedFile_partial_update (systemEnv innerComponentEnv : String → Int)
    (fpath : String) (e : EnvManager) (goods : List EnvFragment)
    (bad : Except String EnvFragment) (rest : List (Except String EnvFragment))
    (hgood : ∀ f ∈ goods, validateFragment systemEnv innerComponentEnv
      { f with source := fpath } = Except.ok ())
    (hbad : (∃ msg, bad = Except.error msg) ∨
      (∃ frag msg, bad = Except.ok frag ∧
        validateFragment systemEnv innerComponentEnv { frag with source := fpath } =
          Except.error msg)) :
    (feedDocs systemEnv innerComponentEnv fpath e
      (goods.map Except.ok ++ bad :: rest)).2.isSome = true ∧
    (feedDocs systemEnv innerComponentEnv fpath e
      (goods.map Except.ok ++ bad :: rest)).1.fragments =
      e.fragments ++ goods.map (fun f => { f with source := fpath }) := by
  induction goods generalizing e with
  | nil =>
    simp only [List.map_nil, List.nil_append, List.append_nil]
    rcases hbad with ⟨msg, hmsg⟩ | ⟨frag, msg, hfrag, hval⟩
    · subst hmsg
      exact ⟨rfl, rfl⟩
    · subst hfrag
      rw [feedDocs_ok_invalid systemEnv innerComponentEnv fpath e frag msg rest hval]
      exact ⟨rfl, rfl⟩
  | cons g gs ih =>
    have hval := hgood g (List.mem_cons_self g gs)
    simp only [List.map_cons, List.cons_append]
    rw [feedDocs_ok_valid systemEnv innerComponentEnv fpath e g
      (gs.map Except.ok ++ bad :: rest) hval]
    rcases ih { e with fragments := e.fragments ++ [{ g with source := fpath }] }
        (fun f hf => hgood f (List.mem_cons_of_mem g hf)) with ⟨h1, h2⟩
    refine ⟨h1, ?_⟩
    rw [h2]
    simp [List.append_assoc]

/-- Concrete fragments for the C10 witness: a valid custom fragment
followed by a custom fragment whose priority 5 fails validation. -/
def goodCustomFrag : EnvFragment :=
  { name := "svc_ok", priority := 120, env := [("A", "1")],
    script := [], source := "" }

def badCustomFrag : EnvFragment :=
  { name := "svc_bad", priority := 5, env := [], script := [], source := "" }

/-- Witness for C10: after the failing second document, the first
fragment has still been appended and an error is reported. -/
theorem C10_witness :
    (feedDocs zeroTable zeroTable "multi.yaml" freshManager
      ([goodCustomFrag].map Except.ok ++
        Except.ok badCustomFrag :: [])).2.isSome = true ∧
    (feedDocs zeroTable zeroTable "multi.yaml" freshManager
      ([goodCustomFrag].map Except.ok ++
        Except.ok badCustomFrag :: [])).1.fragments =
      freshManager.fragments ++
        [goodCustomFrag].map (fun f => { f with source := "multi.yaml" }) :=
  C10_feedFile_partial_update zeroTable zeroTable "multi.yaml" freshManager
    [goodCustomFrag] (Except.ok badCustomFrag) []
    (fun f hf => by
      rw [List.mem_singleton] at hf
      subst hf
      rfl)
    (Or.inr ⟨badCustomFrag, "custom fragment priority must be at least 100",
      rfl, rfl⟩)

end KumoEnv
